import Mathlib

/-!
Verification development for the gitreview-gpt core pipeline
(`gitreview_gpt/formatter.py` and `gitreview_gpt/reviewer.py`).

The Python source is shallowly embedded below:

* Python strings are Lean `String`s; `str.startswith`, `str.split(sep, 1)`,
  the substring test `in`, and `str.strip()` are modelled on the character
  list (`String.data`) exactly as CPython implements them on ASCII inputs.
* Python `int` is Lean `Int` (arbitrary precision, no overflow); the numeric
  fields captured by the regex `@@ -(\d+),(\d+) \+(\d+),(\d+) @@` are
  nonnegative, so they enter the model as `Nat` and are cast to `Int`
  exactly where the Python code computes with them.
* The mutable Python list used as a line-number stack (`list.pop()` removes
  the last element) is modelled as a Lean `List Int` whose head is the
  Python list's last element; popping is taking the head.
* Fallible code (`list.pop()` on an empty list raises `IndexError`,
  `json.loads` raises `ValueError`) is modelled with `Option`.
-/

/-- Model of Python `s.startswith(pre)`: `pre` is a prefix of `s`. -/
def pyStartswith (pre s : String) : Bool :=
  pre.data.isPrefixOf s.data

/-- Scan for the first position at which `needle` occurs as a prefix of a
suffix of the list — contiguous containment, as CPython's substring test. -/
def containsSeq (needle : List Char) : List Char → Bool
  | [] => needle.isEmpty
  | c :: rest => needle.isPrefixOf (c :: rest) || containsSeq needle rest

/-- Model of Python `needle in hay` on strings: substring containment. -/
def pyIn (needle hay : String) : Bool :=
  containsSeq needle.data hay.data

/-- `formatter.py` lines 8-16: the `CodeChunk` class (the spec's CodeUnit). -/
structure CodeChunk where
  start_line : Int
  end_line : Int
  code : String
deriving Repr, DecidableEq

/-- `formatter.py` lines 75-95: the per-hunk annotation loop of
`format_git_diff`.  Walks the lines of one hunk chunk with the running
`line_counter`; a line starting with `"@@ -"` is passed through unannotated,
lines starting with `"---"` or `"-"` are skipped without advancing the
counter, and every other line advances the counter and is emitted as
`str(line_counter) + " " + line`.  Returns the emitted lines together with
the final counter value. -/
def formatHunkLines : Int → List String → List String × Int
  | counter, [] => ([], counter)
  | counter, l :: rest =>
    if pyStartswith "@@ -" l then
      let r := formatHunkLines counter rest
      (l :: r.1, r.2)
    else if pyStartswith "---" l then
      formatHunkLines counter rest
    else if pyStartswith "-" l then
      formatHunkLines counter rest
    else
      let r := formatHunkLines (counter + 1) rest
      ((toString (counter + 1) ++ " " ++ l) :: r.1, r.2)

/-- `formatter.py` lines 71 and 97-103: per-hunk processing of
`format_git_diff`.  `newStart`/`newCount` are the third and fourth numeric
fields of the hunk header (`new_start_line`/`new_end_line` in the source);
the counter starts at `-1 + new_start_line`, the chunk lines are the header
line followed by the hunk body, and the resulting `CodeChunk` has
`start_line = new_start_line` and
`end_line = new_end_line + new_start_line - 1`. -/
def processHunk (newStart newCount : Nat) (hunkText : List String) : CodeChunk :=
  let r := formatHunkLines (-1 + (newStart : Int)) hunkText
  { start_line := (newStart : Int)
    end_line := (newCount : Int) + (newStart : Int) - 1
    code := String.join (r.1.map (· ++ "\n")) }

/-- The condition under which the annotation loop of `format_git_diff`
annotates (and counts) a line: none of the three skip prefixes match. -/
def keptLine (l : String) : Bool :=
  !(pyStartswith "@@ -" l) && !(pyStartswith "---" l) && !(pyStartswith "-" l)

/-- A retained hunk-body line in a unified diff: an added line (`"+"`) or a
context line (`" "`). -/
def addedOrContextLine (l : String) : Bool :=
  pyStartswith "+" l || pyStartswith " " l

/-- Drop characters up to and including the first space. -/
def dropThroughSpace : List Char → List Char
  | [] => []
  | c :: rest => if c = ' ' then rest else dropThroughSpace rest

/-- Strip the leading `"<n> "` annotation token from an annotated line:
everything up to and including the first space is removed. -/
def stripAnnot (s : String) : String :=
  String.mk (dropThroughSpace s.data)


/-- Model of Python `s.split(sep, 1)` restricted to what the source consumes:
scan left to right for the first occurrence of `sep`; on a hit return the
remainder after it (Python's `parts[1]`), otherwise `none` (Python's
`len(parts) == 1`). -/
def splitAfterFirst (sep : List Char) : List Char → Option (List Char)
  | [] => none
  | c :: rest =>
    if sep.isPrefixOf (c :: rest) then some ((c :: rest).drop sep.length)
    else splitAfterFirst sep rest

/-- Python whitespace class (`\s` of the `re` module and the default strip
set of `str.strip()`, ASCII range). -/
def pyWhitespace (c : Char) : Bool :=
  c = ' ' || c = '\t' || c = '\n' || c = '\r' || c = '\x0b' || c = '\x0c'

/-- Model of Python `s.strip()`: remove whitespace from both ends. -/
def pyStrip (s : String) : String :=
  String.mk (((s.data.dropWhile pyWhitespace).reverse.dropWhile pyWhitespace).reverse)

/-- `formatter.py` lines 79-84: the selection-marker extraction of
`format_git_diff`.  The hunk header line is split on the literal string
`"def"`; when it occurs, the marker is the text after its first occurrence,
stripped, and otherwise the marker is the empty string. -/
def markerOf (line : String) : String :=
  match splitAfterFirst "def".data line.data with
  | some rest => pyStrip (String.mk rest)
  | none => ""

/-- Modelled from the spec (section 4.3), for comparison against `markerOf`:
the marker is the free text trailing the four numeric fields and the closing
`@@` delimiter of the hunk header, trimmed, and the empty string when that
trailing text is absent.  On a header `@@ -a,b +c,d @@ text` this is the text
after the second occurrence of `@@`, trimmed. -/
def specHeaderTrailingText (line : String) : String :=
  match splitAfterFirst "@@".data line.data with
  | some afterOpen =>
    match splitAfterFirst "@@".data afterOpen with
    | some afterClose => pyStrip (String.mk afterClose)
    | none => ""
  | none => ""


/-- `formatter.py` lines 105-108: insertion of one `CodeChunk` under its
marker into the per-file marker groups.  A Python `dict` preserves insertion
order, so the groups are an ordered association list: a new marker is
appended at the end with a singleton list, an existing marker has the chunk
appended to its list. -/
def addChunkToGroups : List (String × List CodeChunk) → String → CodeChunk →
    List (String × List CodeChunk)
  | [], m, c => [(m, [c])]
  | g :: rest, m, c =>
    if g.1 = m then (g.1, g.2 ++ [c]) :: rest
    else g :: addChunkToGroups rest m c

/-- The marker-group accumulation performed by the hunk loop of
`format_git_diff`: each hunk, in hunk order, contributes its `CodeChunk`
under its marker string. -/
def buildMarkerGroups : List (String × CodeChunk) → List (String × List CodeChunk) →
    List (String × List CodeChunk)
  | [], groups => groups
  | (m, c) :: rest, groups => buildMarkerGroups rest (addChunkToGroups groups m c)

/-- Ordered association-list lookup (Python `dict` subscript / `in`). -/
def lookupGroup (m : String) : List (String × List CodeChunk) → Option (List CodeChunk)
  | [] => none
  | g :: rest => if g.1 = m then some g.2 else lookupGroup m rest

/-- One match attempt, at the current scan position, of the separator regex
`\n\+{3,}\s` used by `format_git_diff` (`formatter.py` line 32): a newline,
a maximal run of at least three `+` characters, then one whitespace
character.  On a match, returns the remainder of the text after the consumed
separator. -/
def sepMatch (s : List Char) : Option (List Char) :=
  match s with
  | [] => none
  | c :: rest =>
    if c = '\n' then
      if 3 ≤ (rest.takeWhile (fun x => x = '+')).length then
        match rest.dropWhile (fun x => x = '+') with
        | c' :: rest' => if pyWhitespace c' then some rest' else none
        | [] => none
      else none
    else none

/-- `re.split(pattern, text, maxsplit)` specialised to the separator regex
above: scan the text; at each position, while splits remain, a separator
match ends the current chunk and starts the next one after the consumed
separator; once `maxsplit` reaches zero the remainder of the text becomes
the final element (CPython scans no further).  The scan consumes at least
one character per step, so it is given the text length as structural fuel;
the wrappers below always supply sufficient fuel. -/
def reSplitCore : Nat → Nat → List Char → List Char → List (List Char)
  | _, _, acc, [] => [acc.reverse]
  | 0, _, acc, s => [acc.reverse ++ s]
  | fuel + 1, maxsplit, acc, c :: cs =>
    if 0 < maxsplit then
      match sepMatch (c :: cs) with
      | some rest => acc.reverse :: reSplitCore fuel (maxsplit - 1) [] rest
      | none => reSplitCore fuel maxsplit (c :: acc) cs
    else
      [acc.reverse ++ c :: cs]

/-- `formatter.py` line 32:
`re.split(r"\n\+{3,}\s", diff_text, re.MULTILINE)`.  The third positional
argument of `re.split` is `maxsplit`, not `flags`, and `re.MULTILINE` has
the numeric value `8`, so the call splits on at most the first eight
separator occurrences. -/
def pyReSplitFileChunks (diff : String) : List String :=
  (reSplitCore diff.data.length 8 [] diff.data).map String.mk

/-- The same split with `maxsplit` large enough never to bound the number of
splits.  Used to count the file separators actually present in the text. -/
def allFileChunks (diff : String) : List String :=
  (reSplitCore diff.data.length diff.data.length [] diff.data).map String.mk

/-- `formatter.py` lines 33-56: every parent chunk after the first (the
head-info chunk, skipped at `j == -1`) appends exactly one entry to
`file_names` and `file_paths` — one `FileRecord` per parent chunk.  The
number of file records produced by `format_git_diff` is therefore the number
of parent chunks minus one. -/
def formatGitDiffRecordCount (diff : String) : Nat :=
  (pyReSplitFileChunks diff).length - 1

/-- Number of `"+++ "` file separators present in the diff text. -/
def sepCount (diff : String) : Nat :=
  (allFileChunks diff).length - 1


/-- `formatter.py` lines 182-186: the interval test of the inner `while` of
`parse_apply_review_per_code_hunk`, literally
`code_change_hunk.start_line <= line_number < code_change_hunk.start_line +
code_change_hunk.end_line`. -/
def hunkContains (u : CodeChunk) (n : Int) : Bool :=
  u.start_line ≤ n && n < u.start_line + u.end_line

/-- State returned by one run of the inner `while` loop of
`parse_apply_review_per_code_hunk`: the attachments made to the current
hunk (`review_per_chunk`, in insertion order), the line numbers popped
during the loop, the line number held in `line_number` when the loop exits,
and the remaining stack. -/
structure LoopOut (E : Type) where
  acc : List (Int × E)
  pops : List Int
  held : Int
  stack : List Int
deriving Repr, DecidableEq

/-- `formatter.py` lines 182-191: the inner `while` loop.  While the held
line number passes the interval test, the review entry for it
(`review_json[str(line_number)]`, modelled by the total lookup `ρ` — the
stack is built from the keys of `review_json`, so the lookup cannot fail in
the source's usage) is recorded, then the loop stops if the stack is empty
and otherwise pops the next line number. -/
def attachLoop (ρ : Int → E) (u : CodeChunk) : Int → List Int → LoopOut E
  | n, stack =>
    if hunkContains u n then
      match stack with
      | [] => ⟨[(n, ρ n)], [], n, []⟩
      | m :: rest =>
        let r := attachLoop ρ u m rest
        ⟨(n, ρ n) :: r.acc, m :: r.pops, r.held, r.stack⟩
    else ⟨[], [], n, stack⟩

/-- Result of the hunk loop of `parse_apply_review_per_code_hunk`: the
emitted payload (one entry per hunk that matched at least one review entry,
modelled as the hunk together with its attachments rather than the
serialized string `code + "\n" + json.dumps(review_per_chunk) + "\n"`), all
line numbers popped during the loop, the remaining stack, and the number of
hunks iterated before the loop ended. -/
structure MergeOut (E : Type) where
  payload : List (CodeChunk × List (Int × E))
  pops : List Int
  stack : List Int
  visited : Nat
deriving Repr, DecidableEq

/-- `formatter.py` lines 180-200: the `for code_change_hunk in code_changes`
loop.  For each hunk: run the inner `while`; if the hunk accumulated
attachments, emit its payload entry; stop the whole loop when the stack is
empty. -/
def mergeHunks (ρ : Int → E) : List CodeChunk → Int → List Int → MergeOut E
  | [], _, stack => ⟨[], [], stack, 0⟩
  | u :: us, n, stack =>
    let r := attachLoop ρ u n stack
    let emitted := if r.acc.isEmpty then [] else [(u, r.acc)]
    if r.stack.isEmpty then ⟨emitted, r.pops, r.stack, 1⟩
    else
      let m := mergeHunks ρ us r.held r.stack
      ⟨emitted ++ m.payload, r.pops ++ m.pops, m.stack, m.visited + 1⟩

/-- `formatter.py` lines 176-201: `parse_apply_review_per_code_hunk`.  The
function first pops `line_number_stack` unconditionally (line 177); on an
empty stack Python's `list.pop()` raises `IndexError`, modelled as `none`.
The returned `MergeOut` additionally records the popped numbers (initial pop
included), the remaining stack and the number of hunks visited, which the
source keeps implicit in its mutable state. -/
def parse_apply_review_per_code_hunk (ρ : Int → E) (code_changes : List CodeChunk)
    (line_number_stack : List Int) : Option (MergeOut E) :=
  match line_number_stack with
  | [] => none
  | n :: rest =>
    let m := mergeHunks ρ code_changes n rest
    some ⟨m.payload, n :: m.pops, m.stack, m.visited⟩

/-- `reviewer.py` lines 120-131: the inner loop of `apply_review` over one
`chunk_payload`.  Each chunk is costed as
`utils.count_tokens(json.dumps(chunk)) + prompt_tokens` (here `cost c +
promptTokens` with `cost` the abstract token counter) and appended to the
batch when the cost is at most 2048, skipped otherwise. -/
def collectChunksToReview (cost : α → Nat) (promptTokens : Nat) : List α → List α
  | [] => []
  | c :: rest =>
    if cost c + promptTokens ≤ 2048 then
      c :: collectChunksToReview cost promptTokens rest
    else
      collectChunksToReview cost promptTokens rest

/-- `reviewer.py` lines 105-131: the `for code_chunk in
selection_marker_chunks.values()` loop of `apply_review`, threading the
mutable `line_number_stack` through successive calls of
`parse_apply_review_per_code_hunk`.  The loop breaks before the call
whenever the stack is empty; a call on an empty stack would propagate the
`IndexError` (`none`). -/
def applyReviewChunkLoop (ρ : Int → E) (cost : CodeChunk × List (Int × E) → Nat)
    (promptTokens : Nat) :
    List (List CodeChunk) → List Int → Option (List (CodeChunk × List (Int × E)))
  | [], _ => some []
  | g :: gs, stack =>
    if stack.isEmpty then some []
    else
      match parse_apply_review_per_code_hunk ρ g stack with
      | none => none
      | some r =>
        match applyReviewChunkLoop ρ cost promptTokens gs r.stack with
        | none => none
        | some acc => some (collectChunksToReview cost promptTokens r.payload ++ acc)

/-- `reviewer.py` lines 12-56: the parse-and-repair control flow of
`request_review`, after the initial service call.  `reviewResult` is the
text returned by the service (the Python `if not review_result` guard on a
falsy response is the emptiness test); `parse` models
`formatter.parse_review_result`, whose `json.loads` raises `ValueError` on
failure (`none`); `extractMd` models
`formatter.extract_content_from_markdown_code_block`; `repairTruncated`
models `utils.repair_truncated_json`; `sendRepairRequest` models the
regeneration round trip through `request.send_request` with the repair
prompt. -/
def request_review (reviewResult : String) (parse : String → Option J)
    (extractMd : String → String) (repairTruncated : String → String)
    (sendRepairRequest : String → String) : Option J :=
  if reviewResult = "" then none
  else
    match parse reviewResult with
    | some j => some j
    | none =>
      match parse (extractMd reviewResult) with
      | some j => some j
      | none =>
        match parse (repairTruncated reviewResult) with
        | some j => some j
        | none => parse (extractMd (sendRepairRequest reviewResult))

/-- One review entry value of the review-result JSON:
`{feedback: string, suggestion?: string}`. -/
structure ReviewEntry where
  feedback : String
  suggestion : Option String
deriving Repr, DecidableEq

/-- Model of Python `s.lower()`: lower-case every character. -/
def pyLower (s : String) : String :=
  String.mk (s.data.map Char.toLower)

/-- `formatter.py` lines 128-137: the feedback filter predicate of
`remove_unused_suggestions`. -/
def has_not_used_or_unused (feedback : String) : Bool :=
  pyIn "not used" (pyLower feedback)
    || pyIn "unused" (pyLower feedback)
    || pyIn "not being used" (pyLower feedback)
    || pyIn "variable name" (pyLower feedback)
    || pyIn "more descriptive" (pyLower feedback)
    || pyIn "more specific" (pyLower feedback)
    || pyIn "never used" (pyLower feedback)

/-- The per-file entry filter of the dict comprehension in
`remove_unused_suggestions` (`formatter.py` lines 141-145). -/
def filterFileEntries (fileData : List (String × ReviewEntry)) :
    List (String × ReviewEntry) :=
  fileData.filter (fun lv => !(has_not_used_or_unused lv.2.feedback))

/-- `formatter.py` lines 126-147: `remove_unused_suggestions`.  The review
result maps file keys to per-line entry maps (Python dicts, modelled as
insertion-ordered association lists); every file key is kept and its entries
are filtered by the feedback predicate. -/
def remove_unused_suggestions
    (review_result : List (String × List (String × ReviewEntry))) :
    List (String × List (String × ReviewEntry)) :=
  review_result.map (fun fd => (fd.1, filterFileEntries fd.2))

lemma isPrefixOf_cons_head_ne {a b : Char} {p s : List Char} (hab : ¬ a = b) :
    List.isPrefixOf (a :: p) (b :: s) = false := by
  simp [List.isPrefixOf_cons₂, hab]

lemma dataPlus : "+".data = ['+'] := rfl

lemma dataSpace : " ".data = [' '] := rfl

lemma dataDash : "-".data = ['-'] := rfl

lemma dataTripleDash : "---".data = ['-', '-', '-'] := rfl

lemma dataHunkHeader : "@@ -".data = ['@', '@', ' ', '-'] := rfl

/-- A well-formed hunk-body line (leading `+`, space, or `-`) never takes the
header branch of the annotation loop, and takes the annotate branch exactly
when it is an added or context line. -/
lemma bodyLine_branch {l : String}
    (h : pyStartswith "+" l = true ∨ pyStartswith " " l = true ∨
      pyStartswith "-" l = true) :
    pyStartswith "@@ -" l = false ∧
      ((addedOrContextLine l = true ∧ pyStartswith "---" l = false ∧
          pyStartswith "-" l = false) ∨
        (addedOrContextLine l = false ∧ pyStartswith "-" l = true)) := by
  obtain ⟨c, cs, hd, hc⟩ : ∃ c cs, l.data = c :: cs ∧ (c = '+' ∨ c = ' ' ∨ c = '-') := by
    cases hd : l.data with
    | nil =>
      exfalso
      rcases h with h | h | h <;>
        simp [pyStartswith, hd, dataPlus, dataSpace, dataDash] at h
    | cons c cs =>
      refine ⟨c, cs, rfl, ?_⟩
      rcases h with h | h | h <;>
        simp only [pyStartswith, hd, dataPlus, dataSpace, dataDash,
          List.isPrefixOf_cons₂, List.isPrefixOf_nil_left, Bool.and_true,
          beq_iff_eq] at h
      · exact Or.inl h.symm
      · exact Or.inr (Or.inl h.symm)
      · exact Or.inr (Or.inr h.symm)
  rcases hc with hc | hc | hc <;> subst hc
  · refine ⟨?_, Or.inl ⟨?_, ?_, ?_⟩⟩
    · simp [pyStartswith, hd, dataHunkHeader, isPrefixOf_cons_head_ne]
    · simp [addedOrContextLine, pyStartswith, hd, dataPlus, List.isPrefixOf_cons₂]
    · simp [pyStartswith, hd, dataTripleDash, isPrefixOf_cons_head_ne]
    · simp [pyStartswith, hd, dataDash, isPrefixOf_cons_head_ne]
  · refine ⟨?_, Or.inl ⟨?_, ?_, ?_⟩⟩
    · simp [pyStartswith, hd, dataHunkHeader, isPrefixOf_cons_head_ne]
    · simp [addedOrContextLine, pyStartswith, hd, dataPlus, dataSpace,
        List.isPrefixOf_cons₂, isPrefixOf_cons_head_ne]
    · simp [pyStartswith, hd, dataTripleDash, isPrefixOf_cons_head_ne]
    · simp [pyStartswith, hd, dataDash, isPrefixOf_cons_head_ne]
  · refine ⟨?_, Or.inr ⟨?_, ?_⟩⟩
    · simp [pyStartswith, hd, dataHunkHeader, isPrefixOf_cons_head_ne]
    · simp [addedOrContextLine, pyStartswith, hd, dataPlus, dataSpace,
        isPrefixOf_cons_head_ne]
    · simp [pyStartswith, hd, dataDash, List.isPrefixOf_cons₂]

/-- Under a well-formed hunk body, the annotation loop emits exactly one line
per added-or-context line. -/
lemma formatHunkLines_length (counter : Int) (body : List String)
    (hwf : ∀ l ∈ body, pyStartswith "+" l = true ∨ pyStartswith " " l = true ∨
      pyStartswith "-" l = true) :
    (formatHunkLines counter body).1.length = body.countP addedOrContextLine := by
  induction body generalizing counter with
  | nil => simp [formatHunkLines]
  | cons l rest ih =>
    have hrest : ∀ l' ∈ rest, pyStartswith "+" l' = true ∨ pyStartswith " " l' = true ∨
        pyStartswith "-" l' = true := fun l' h' => hwf l' (List.mem_cons_of_mem _ h')
    obtain ⟨hhdr, hcase⟩ := bodyLine_branch (hwf l (List.mem_cons_self l rest))
    rcases hcase with ⟨haoc, h3, h1⟩ | ⟨haoc, h1⟩
    · simp [formatHunkLines, hhdr, h3, h1, List.countP_cons, haoc,
        ih (counter + 1) hrest]
    · by_cases h3 : pyStartswith "---" l = true
      · simp [formatHunkLines, hhdr, h3, List.countP_cons, haoc, ih counter hrest]
      · simp [formatHunkLines, hhdr, h3, h1, List.countP_cons, haoc, ih counter hrest]

lemma digitChar_ne_space (n : Nat) : Nat.digitChar n ≠ ' ' := by
  rcases Nat.lt_or_ge n 16 with h | h
  · interval_cases n <;> decide
  · unfold Nat.digitChar
    repeat rw [if_neg (by omega)]
    decide

lemma toDigitsCore_not_space (b fuel n : Nat) (ds : List Char) (hds : ' ' ∉ ds) :
    ' ' ∉ Nat.toDigitsCore b fuel n ds := by
  induction fuel generalizing n ds with
  | zero => simpa [Nat.toDigitsCore] using hds
  | succ fuel ih =>
    rw [Nat.toDigitsCore]
    split
    · intro hmem
      rcases List.mem_cons.mp hmem with hmem | hmem
      · exact digitChar_ne_space _ hmem.symm
      · exact hds hmem
    · refine ih _ _ ?_
      intro hmem
      rcases List.mem_cons.mp hmem with hmem | hmem
      · exact digitChar_ne_space _ hmem.symm
      · exact hds hmem

lemma space_not_in_natRepr (m : Nat) : ' ' ∉ (Nat.repr m).data := by
  unfold Nat.repr Nat.toDigits
  simpa [List.asString] using toDigitsCore_not_space 10 (m + 1) m [] (by simp)

lemma space_not_in_toString_int {n : Int} (hn : 0 ≤ n) : ' ' ∉ (toString n).data := by
  obtain ⟨m, rfl⟩ := Int.eq_ofNat_of_zero_le hn
  exact space_not_in_natRepr m

lemma dropThroughSpace_append {xs ys : List Char} (h : ' ' ∉ xs) :
    dropThroughSpace (xs ++ ' ' :: ys) = ys := by
  induction xs with
  | nil => simp [dropThroughSpace]
  | cons c cs ih =>
    have hc : ¬ c = ' ' := fun hc => h (hc ▸ List.mem_cons_self c cs)
    simp only [List.cons_append, dropThroughSpace, if_neg hc]
    exact ih (fun hmem => h (List.mem_cons_of_mem _ hmem))

/-- Stripping the `"<n> "` token from a line annotated with a nonnegative
line number recovers the original line. -/
lemma stripAnnot_annotated {n : Int} (hn : 0 ≤ n) (l : String) :
    stripAnnot (toString n ++ " " ++ l) = l := by
  have hdata : (toString n ++ " " ++ l).data = (toString n).data ++ ' ' :: l.data := by
    simp [String.data_append, dataSpace]
  rw [stripAnnot, hdata, dropThroughSpace_append (space_not_in_toString_int hn)]

/-- Under a well-formed hunk body, stripping the annotation token from every
emitted line recovers the added and context lines verbatim, in order. -/
lemma formatHunkLines_strip (counter : Int) (body : List String) (hc : -1 ≤ counter)
    (hwf : ∀ l ∈ body, pyStartswith "+" l = true ∨ pyStartswith " " l = true ∨
      pyStartswith "-" l = true) :
    (formatHunkLines counter body).1.map stripAnnot = body.filter addedOrContextLine := by
  induction body generalizing counter with
  | nil => simp [formatHunkLines]
  | cons l rest ih =>
    have hrest : ∀ l' ∈ rest, pyStartswith "+" l' = true ∨ pyStartswith " " l' = true ∨
        pyStartswith "-" l' = true := fun l' h' => hwf l' (List.mem_cons_of_mem _ h')
    obtain ⟨hhdr, hcase⟩ := bodyLine_branch (hwf l (List.mem_cons_self l rest))
    rcases hcase with ⟨haoc, h3, h1⟩ | ⟨haoc, h1⟩
    · have hstrip := stripAnnot_annotated (n := counter + 1) (by omega) l
      simp [formatHunkLines, hhdr, h3, h1, haoc, hstrip,
        ih (counter + 1) (by omega) hrest]
    · by_cases h3 : pyStartswith "---" l = true
      · simp [formatHunkLines, hhdr, h3, haoc, ih counter hc hrest]
      · simp [formatHunkLines, hhdr, h3, h1, haoc, ih counter hc hrest]

/-- C4: for every well-formed hunk with header fields `new_start` and
`new_count`, the Line Annotator produces a CodeUnit with
`start_line = new_start`, `end_line = new_start + new_count - 1`, and exactly
`new_count` annotated lines; removed lines are skipped without advancing the
counter and the hunk header line is passed through unannotated (the emitted
lines are the header followed by exactly `new_count` annotated body
lines). -/
theorem c4_line_annotator (newStart newCount : Nat) (header : String)
    (body : List String)
    (hh : pyStartswith "@@ -" header = true)
    (hwf : ∀ l ∈ body, pyStartswith "+" l = true ∨ pyStartswith " " l = true ∨
      pyStartswith "-" l = true)
    (hcount : body.countP addedOrContextLine = newCount) :
    (processHunk newStart newCount (header :: body)).start_line = (newStart : Int) ∧
    (processHunk newStart newCount (header :: body)).end_line
        = (newStart : Int) + (newCount : Int) - 1 ∧
    (formatHunkLines (-1 + (newStart : Int)) (header :: body)).1
        = header :: (formatHunkLines (-1 + (newStart : Int)) body).1 ∧
    (formatHunkLines (-1 + (newStart : Int)) body).1.length = newCount := by
  refine ⟨rfl, ?_, ?_, ?_⟩
  · show (newCount : Int) + (newStart : Int) - 1 = (newStart : Int) + (newCount : Int) - 1
    ring
  · simp [formatHunkLines, hh]
  · rw [formatHunkLines_length _ body hwf, hcount]

/-- Witness for C4 at the spec's scenario: hunk header `@@ -1,3 +1,4 @@`
(three old lines, four new lines: one added line), giving
`start_line = 1`, `end_line = 4`, and four annotated lines. -/
theorem c4_line_annotator_witness :
    (pyStartswith "@@ -" "@@ -1,3 +1,4 @@" = true) ∧
    (∀ l ∈ [" a", " b", " c", "+d"], pyStartswith "+" l = true ∨
      pyStartswith " " l = true ∨ pyStartswith "-" l = true) ∧
    ([" a", " b", " c", "+d"].countP addedOrContextLine = 4) ∧
    ((processHunk 1 4 ("@@ -1,3 +1,4 @@" :: [" a", " b", " c", "+d"])).start_line
        = ((1 : Nat) : Int) ∧
      (processHunk 1 4 ("@@ -1,3 +1,4 @@" :: [" a", " b", " c", "+d"])).end_line
        = ((1 : Nat) : Int) + ((4 : Nat) : Int) - 1 ∧
      (formatHunkLines (-1 + ((1 : Nat) : Int))
          ("@@ -1,3 +1,4 @@" :: [" a", " b", " c", "+d"])).1
        = "@@ -1,3 +1,4 @@"
          :: (formatHunkLines (-1 + ((1 : Nat) : Int)) [" a", " b", " c", "+d"]).1 ∧
      (formatHunkLines (-1 + ((1 : Nat) : Int)) [" a", " b", " c", "+d"]).1.length = 4) :=
  ⟨by decide, by decide, by decide,
    c4_line_annotator 1 4 "@@ -1,3 +1,4 @@" [" a", " b", " c", "+d"]
      (by decide) (by decide) (by decide)⟩

/-- C8: round-trip — for every well-formed hunk, stripping the leading
`"<n> "` annotation token from each annotated line of the unit produced by
the Line Annotator recovers the hunk's original added and context lines
verbatim and in their original order (the emitted lines are the unannotated
header followed by the annotated body lines, and stripping those recovers
exactly the added/context lines). -/
theorem c8_round_trip (newStart : Nat) (header : String) (body : List String)
    (hh : pyStartswith "@@ -" header = true)
    (hwf : ∀ l ∈ body, pyStartswith "+" l = true ∨ pyStartswith " " l = true ∨
      pyStartswith "-" l = true) :
    (formatHunkLines (-1 + (newStart : Int)) (header :: body)).1
        = header :: (formatHunkLines (-1 + (newStart : Int)) body).1 ∧
    (formatHunkLines (-1 + (newStart : Int)) body).1.map stripAnnot
        = body.filter addedOrContextLine := by
  constructor
  · simp [formatHunkLines, hh]
  · refine formatHunkLines_strip _ body ?_ hwf
    have : (0 : Int) ≤ (newStart : Int) := Int.natCast_nonneg newStart
    omega

/-- Witness for C8 at a concrete hunk: annotating then stripping recovers
the added and context lines. -/
theorem c8_round_trip_witness :
    (pyStartswith "@@ -" "@@ -3,3 +3,3 @@ def f():" = true) ∧
    (∀ l ∈ ["+new line", "-old line", "  x = 1"], pyStartswith "+" l = true ∨
      pyStartswith " " l = true ∨ pyStartswith "-" l = true) ∧
    ((formatHunkLines (-1 + ((3 : Nat) : Int))
          ("@@ -3,3 +3,3 @@ def f():" :: ["+new line", "-old line", "  x = 1"])).1
        = "@@ -3,3 +3,3 @@ def f():"
          :: (formatHunkLines (-1 + ((3 : Nat) : Int))
              ["+new line", "-old line", "  x = 1"]).1 ∧
      (formatHunkLines (-1 + ((3 : Nat) : Int))
          ["+new line", "-old line", "  x = 1"]).1.map stripAnnot
        = ["+new line", "-old line", "  x = 1"].filter addedOrContextLine) :=
  ⟨by decide, by decide,
    c8_round_trip 3 "@@ -3,3 +3,3 @@ def f():" ["+new line", "-old line", "  x = 1"]
      (by decide) (by decide)⟩

/-- C5: the Budget Splitter loop of `apply_review` keeps exactly the
payloads whose token cost plus the fixed prompt-overhead estimate is at most
2048, in their original order, and a payload whose cost plus overhead
exceeds 2048 appears in no emitted batch. -/
theorem c5_budget_splitter {α : Type} (cost : α → Nat) (promptTokens : Nat)
    (payloads : List α) :
    collectChunksToReview cost promptTokens payloads
        = payloads.filter (fun c => decide (cost c + promptTokens ≤ 2048)) ∧
    (∀ c ∈ payloads, 2048 < cost c + promptTokens →
      c ∉ collectChunksToReview cost promptTokens payloads) := by
  have hfilter : collectChunksToReview cost promptTokens payloads
      = payloads.filter (fun c => decide (cost c + promptTokens ≤ 2048)) := by
    induction payloads with
    | nil => rfl
    | cons c rest ih =>
      by_cases hc : cost c + promptTokens ≤ 2048 <;>
        simp [collectChunksToReview, List.filter_cons, hc, ih]
  refine ⟨hfilter, fun c hc hbig hmem => ?_⟩
  rw [hfilter] at hmem
  have := (List.mem_filter.mp hmem).2
  simp at this
  omega

/-- Witness for C5 at the spec's scenario: a token ceiling of 2048 and a
payload measuring 2500 tokens (zero prompt overhead) — the payload is
dropped and appears in no batch, while a 1000-token payload passes through
in order. -/
theorem c5_budget_splitter_witness :
    ((0 : Nat) ∈ [(0 : Nat), 1] ∧ 2048 < (fun c => if c = 0 then 2500 else 1000) 0 + 0) ∧
    collectChunksToReview (fun c => if c = 0 then 2500 else 1000) 0 [(0 : Nat), 1]
        = [([(0 : Nat), 1]).get ⟨1, by decide⟩] ∧
    (0 : Nat) ∉ collectChunksToReview (fun c => if c = 0 then 2500 else 1000) 0
        [(0 : Nat), 1] :=
  ⟨⟨by decide, by decide⟩, by decide,
    (c5_budget_splitter (fun c => if c = 0 then 2500 else 1000) 0 [0, 1]).2 0
      (by decide) (by decide)⟩

/-- C9: `remove_unused_suggestions` preserves every file key, and for each
file keeps exactly the entries whose feedback does not contain (after
lower-casing) one of the seven filtered phrases; in particular every entry
surviving in the output has feedback not containing `"unused"`
case-insensitively. -/
theorem c9_remove_unused (rv : List (String × List (String × ReviewEntry))) :
    (remove_unused_suggestions rv).map Prod.fst = rv.map Prod.fst ∧
    (∀ fd ∈ rv, (fd.1, filterFileEntries fd.2) ∈ remove_unused_suggestions rv) ∧
    (∀ (d : List (String × ReviewEntry)) (le : String × ReviewEntry),
      le ∈ filterFileEntries d ↔
        le ∈ d ∧ has_not_used_or_unused le.2.feedback = false) ∧
    (∀ f d, (f, d) ∈ remove_unused_suggestions rv → ∀ le ∈ d,
      pyIn "unused" (pyLower le.2.feedback) = false) := by
  refine ⟨?_, ?_, ?_, ?_⟩
  · simp [remove_unused_suggestions]
  · intro fd hfd
    exact List.mem_map_of_mem _ hfd
  · intro d le
    simp [filterFileEntries, List.mem_filter]
  · intro f d hmem le hle
    simp only [remove_unused_suggestions, List.mem_map] at hmem
    obtain ⟨fd, hfd, heq⟩ := hmem
    injection heq with h1 h2
    subst h2
    have hhas : has_not_used_or_unused le.2.feedback = false := by
      have := (List.mem_filter.mp hle).2
      simpa using this
    simp only [has_not_used_or_unused, Bool.or_eq_false_iff] at hhas
    exact hhas.1.1.1.1.1.2

/-- Witness for C9 at the spec's scenario: a review map whose entry at line
5 has feedback containing `"unused"` (upper-cased, exercising the
case-insensitive match) is filtered while an innocuous entry at line 7
survives, under the original file key. -/
theorem c9_remove_unused_witness :
    (("file.py", [("5", ReviewEntry.mk "UNUSED variable" none),
        ("7", ReviewEntry.mk "add a docstring" none)])
      ∈ [("file.py", [("5", ReviewEntry.mk "UNUSED variable" none),
        ("7", ReviewEntry.mk "add a docstring" none)])]) ∧
    (("file.py", filterFileEntries [("5", ReviewEntry.mk "UNUSED variable" none),
        ("7", ReviewEntry.mk "add a docstring" none)])
      ∈ remove_unused_suggestions
        [("file.py", [("5", ReviewEntry.mk "UNUSED variable" none),
          ("7", ReviewEntry.mk "add a docstring" none)])]) ∧
    (("5", ReviewEntry.mk "UNUSED variable" none)
        ∈ filterFileEntries [("5", ReviewEntry.mk "UNUSED variable" none),
          ("7", ReviewEntry.mk "add a docstring" none)] ↔
      (("5", ReviewEntry.mk "UNUSED variable" none)
          ∈ [("5", ReviewEntry.mk "UNUSED variable" none),
            ("7", ReviewEntry.mk "add a docstring" none)] ∧
        has_not_used_or_unused (ReviewEntry.mk "UNUSED variable" none).feedback
          = false)) :=
  ⟨by decide,
    (c9_remove_unused [("file.py", [("5", ReviewEntry.mk "UNUSED variable" none),
      ("7", ReviewEntry.mk "add a docstring" none)])]).2.1
      ("file.py", [("5", ReviewEntry.mk "UNUSED variable" none),
        ("7", ReviewEntry.mk "add a docstring" none)]) (by decide),
    (c9_remove_unused [("file.py", [("5", ReviewEntry.mk "UNUSED variable" none),
      ("7", ReviewEntry.mk "add a docstring" none)])]).2.2.1
      [("5", ReviewEntry.mk "UNUSED variable" none),
        ("7", ReviewEntry.mk "add a docstring" none)]
      ("5", ReviewEntry.mk "UNUSED variable" none)⟩

/-- C7: `request_review` parses the service response as JSON and on failure
applies the fallback layers in order — strip markdown code fences, repair
truncated JSON, request a regenerated response — returning the first
successful parse, and returning `none` exactly when the initial response is
empty or every layer fails. -/
theorem c7_request_review {J : Type} (reviewResult : String)
    (parse : String → Option J) (extractMd repairTruncated : String → String)
    (sendRepairRequest : String → String) :
    (request_review reviewResult parse extractMd repairTruncated sendRepairRequest
        = none ↔
      reviewResult = "" ∨
        (parse reviewResult = none ∧ parse (extractMd reviewResult) = none ∧
          parse (repairTruncated reviewResult) = none ∧
          parse (extractMd (sendRepairRequest reviewResult)) = none)) ∧
    (reviewResult ≠ "" → ∀ j, parse reviewResult = some j →
      request_review reviewResult parse extractMd repairTruncated sendRepairRequest
        = some j) ∧
    (reviewResult ≠ "" → parse reviewResult = none →
      ∀ j, parse (extractMd reviewResult) = some j →
      request_review reviewResult parse extractMd repairTruncated sendRepairRequest
        = some j) ∧
    (reviewResult ≠ "" → parse reviewResult = none →
      parse (extractMd reviewResult) = none →
      ∀ j, parse (repairTruncated reviewResult) = some j →
      request_review reviewResult parse extractMd repairTruncated sendRepairRequest
        = some j) ∧
    (reviewResult ≠ "" → parse reviewResult = none →
      parse (extractMd reviewResult) = none →
      parse (repairTruncated reviewResult) = none →
      request_review reviewResult parse extractMd repairTruncated sendRepairRequest
        = parse (extractMd (sendRepairRequest reviewResult))) := by
  refine ⟨?_, ?_, ?_, ?_, ?_⟩
  · by_cases hr : reviewResult = ""
    · simp [request_review, hr]
    · cases h1 : parse reviewResult with
      | some j => simp [request_review, hr, h1]
      | none =>
        cases h2 : parse (extractMd reviewResult) with
        | some j => simp [request_review, hr, h1, h2]
        | none =>
          cases h3 : parse (repairTruncated reviewResult) with
          | some j => simp [request_review, hr, h1, h2, h3]
          | none => simp [request_review, hr, h1, h2, h3]
  · intro hr j hj
    simp [request_review, hr, hj]
  · intro hr h1 j hj
    simp [request_review, hr, h1, hj]
  · intro hr h1 h2 j hj
    simp [request_review, hr, h1, h2, hj]
  · intro hr h1 h2 h3
    simp [request_review, hr, h1, h2, h3]

/-- Witness for C7: a nonempty response that the first layer parses
successfully is returned as the parsed review object. -/
theorem c7_request_review_witness :
    (("ok" : String) ≠ "" ∧
      (fun s => if s = "ok" then some (1 : Nat) else none) "ok" = some 1) ∧
    request_review "ok" (fun s => if s = "ok" then some (1 : Nat) else none)
        id id id = some 1 :=
  ⟨⟨by decide, by decide⟩,
    (c7_request_review "ok" (fun s => if s = "ok" then some (1 : Nat) else none)
      id id id).2.1 (by decide) 1 (by decide)⟩

/-- The inner `while` loop consumes a prefix of the stack, attaches a
subsequence of the popped numbers (initial held number included), and when
it leaves the stack nonempty the held number is exactly the one popped
number it did not attach. -/
lemma attachLoop_spec {E : Type} (ρ : Int → E) (u : CodeChunk) :
    ∀ (n : Int) (stack : List Int),
      (attachLoop ρ u n stack).pops ++ (attachLoop ρ u n stack).stack = stack ∧
      ((attachLoop ρ u n stack).acc.map Prod.fst).Sublist
        (n :: (attachLoop ρ u n stack).pops) ∧
      ((attachLoop ρ u n stack).stack ≠ [] →
        (attachLoop ρ u n stack).acc.map Prod.fst
            ++ [(attachLoop ρ u n stack).held]
          = n :: (attachLoop ρ u n stack).pops)
  | n, [] => by
    by_cases hc : hunkContains u n = true <;> simp [attachLoop, hc]
  | n, m :: rest => by
    by_cases hc : hunkContains u n = true
    · obtain ⟨ih1, ih2, ih3⟩ := attachLoop_spec ρ u m rest
      simp only [attachLoop, if_pos hc]
      refine ⟨by simpa using ih1, by simpa using List.Sublist.cons₂ n ih2, ?_⟩
      intro hne
      have h3 := ih3 (by simpa using hne)
      simpa using h3
    · simp [attachLoop, hc]

/-- Computation of the flattened key list of an emitted payload entry. -/
lemma emitted_flatten {E : Type} (u : CodeChunk) (acc : List (Int × E)) :
    (((if acc.isEmpty then ([] : List (CodeChunk × List (Int × E)))
          else [(u, acc)]).map (fun p => p.2.map Prod.fst)).flatten)
      = acc.map Prod.fst := by
  by_cases h : acc.isEmpty
  · have hnil : acc = [] := List.isEmpty_iff.mp h
    simp [h, hnil]
  · simp [h]

/-- Invariants of the hunk loop of `parse_apply_review_per_code_hunk`: the
numbers popped inside the loop, followed by the final stack, reconstitute
the incoming stack; the keys attached across all emitted payload entries
form a subsequence of the consumed numbers (held number first); and the
loop ends with an empty stack or after visiting every hunk. -/
lemma mergeHunks_spec {E : Type} (ρ : Int → E) :
    ∀ (units : List CodeChunk) (n : Int) (stack : List Int),
      (mergeHunks ρ units n stack).pops ++ (mergeHunks ρ units n stack).stack
          = stack ∧
      (((mergeHunks ρ units n stack).payload.map
          (fun p => p.2.map Prod.fst)).flatten).Sublist
        (n :: (mergeHunks ρ units n stack).pops) ∧
      ((mergeHunks ρ units n stack).stack = [] ∨
        (mergeHunks ρ units n stack).visited = units.length)
  | [], n, stack => by simp [mergeHunks]
  | u :: us, n, stack => by
    obtain ⟨h1, h2, h3⟩ := attachLoop_spec ρ u n stack
    by_cases hs : (attachLoop ρ u n stack).stack.isEmpty
    · have hstack : (attachLoop ρ u n stack).stack = [] := List.isEmpty_iff.mp hs
      simp only [mergeHunks, hs, if_true]
      refine ⟨by simpa [hstack] using h1, ?_, Or.inl hstack⟩
      rw [emitted_flatten]
      exact h2
    · have hne : (attachLoop ρ u n stack).stack ≠ [] := fun h => hs (by rw [h]; rfl)
      obtain ⟨ih1, ih2, ih3⟩ :=
        mergeHunks_spec ρ us (attachLoop ρ u n stack).held
          (attachLoop ρ u n stack).stack
      simp only [mergeHunks, hs, if_false, Bool.false_eq_true]
      refine ⟨?_, ?_, ?_⟩
      · rw [List.append_assoc, ih1, h1]
      · rw [List.map_append, List.flatten_append, emitted_flatten]
        have hsub := List.Sublist.append_left ih2
          ((attachLoop ρ u n stack).acc.map Prod.fst)
        rw [List.append_cons _ (attachLoop ρ u n stack).held, h3 hne] at hsub
        simpa using hsub
      · rcases ih3 with hleft | hright
        · exact Or.inl hleft
        · exact Or.inr (by simp [hright])

/-- C6: across one call to the Review Merger, the popped numbers form a
prefix of the stack (so, the stack being duplicate-free, every line number
is popped at most once), the per-unit attached key sets are duplicate-free
and pairwise disjoint (no review entry is attached to two different units —
an attached entry belongs to exactly one unit), and the run ends exactly
when the stack is empty or every unit has been visited. -/
theorem c6_review_merger_invariants {E : Type} (ρ : Int → E)
    (units : List CodeChunk) (stack : List Int) (hnd : stack.Nodup)
    (r : MergeOut E)
    (hr : parse_apply_review_per_code_hunk ρ units stack = some r) :
    r.pops ++ r.stack = stack ∧
    r.pops.Nodup ∧
    (∀ p ∈ r.payload, (p.2.map Prod.fst).Nodup) ∧
    (r.payload.map (fun p => p.2.map Prod.fst)).Pairwise List.Disjoint ∧
    (r.stack = [] ∨ r.visited = units.length) := by
  match stack, hnd, hr with
  | n :: rest, hnd, hr =>
    obtain ⟨m1, m2, m3⟩ := mergeHunks_spec ρ units n rest
    have hr' : (⟨(mergeHunks ρ units n rest).payload,
        n :: (mergeHunks ρ units n rest).pops,
        (mergeHunks ρ units n rest).stack,
        (mergeHunks ρ units n rest).visited⟩ : MergeOut E) = r :=
      Option.some.inj hr
    subst hr'
    have hpops : (n :: (mergeHunks ρ units n rest).pops)
        ++ (mergeHunks ρ units n rest).stack = n :: rest := by
      simpa using m1
    have hpopsSub : (n :: (mergeHunks ρ units n rest).pops).Sublist (n :: rest) := by
      rw [← hpops]
      exact List.sublist_append_left _ _
    have hpopsNodup : (n :: (mergeHunks ρ units n rest).pops).Nodup :=
      List.Nodup.sublist hpopsSub hnd
    have hflat : (((mergeHunks ρ units n rest).payload.map
        (fun p => p.2.map Prod.fst)).flatten).Nodup :=
      List.Nodup.sublist m2 hpopsNodup
    obtain ⟨hEach, hPairwise⟩ := List.nodup_flatten.mp hflat
    refine ⟨hpops, hpopsNodup, ?_, hPairwise, m3⟩
    intro p hp
    exact hEach _ (List.mem_map_of_mem _ hp)

/-- Witness for C6: two units and the duplicate-free stack `[2, 3, 11]`
(head is the top).  The numbers 2 and 3 are attached to the first unit, the
stack is exhausted, and the merge stops after visiting one unit. -/
theorem c6_review_merger_invariants_witness :
    ([(2 : Int), 3, 11].Nodup ∧
      parse_apply_review_per_code_hunk (fun _ => "f")
          [CodeChunk.mk 1 3 "A", CodeChunk.mk 10 5 "B"] [(2 : Int), 3, 11]
        = some (MergeOut.mk [(CodeChunk.mk 1 3 "A", [(2, "f"), (3, "f")])]
            [2, 3, 11] [] 1)) ∧
    ((MergeOut.mk [(CodeChunk.mk 1 3 "A", [((2 : Int), "f"), (3, "f")])]
        [(2 : Int), 3, 11] ([] : List Int) 1).pops
        ++ (MergeOut.mk [(CodeChunk.mk 1 3 "A", [((2 : Int), "f"), (3, "f")])]
            [(2 : Int), 3, 11] ([] : List Int) 1).stack = [(2 : Int), 3, 11] ∧
      (MergeOut.mk [(CodeChunk.mk 1 3 "A", [((2 : Int), "f"), (3, "f")])]
          [(2 : Int), 3, 11] ([] : List Int) 1).pops.Nodup ∧
      (∀ p ∈ (MergeOut.mk [(CodeChunk.mk 1 3 "A", [((2 : Int), "f"), (3, "f")])]
          [(2 : Int), 3, 11] ([] : List Int) 1).payload,
        (p.2.map Prod.fst).Nodup) ∧
      ((MergeOut.mk [(CodeChunk.mk 1 3 "A", [((2 : Int), "f"), (3, "f")])]
          [(2 : Int), 3, 11] ([] : List Int) 1).payload.map
            (fun p => p.2.map Prod.fst)).Pairwise List.Disjoint ∧
      ((MergeOut.mk [(CodeChunk.mk 1 3 "A", [((2 : Int), "f"), (3, "f")])]
          [(2 : Int), 3, 11] ([] : List Int) 1).stack = [] ∨
        (MergeOut.mk [(CodeChunk.mk 1 3 "A", [((2 : Int), "f"), (3, "f")])]
            [(2 : Int), 3, 11] ([] : List Int) 1).visited
          = [CodeChunk.mk 1 3 "A", CodeChunk.mk 10 5 "B"].length)) :=
  ⟨⟨by decide, by decide⟩,
    c6_review_merger_invariants (fun _ => "f")
      [CodeChunk.mk 1 3 "A", CodeChunk.mk 10 5 "B"] [(2 : Int), 3, 11] (by decide)
      (MergeOut.mk [(CodeChunk.mk 1 3 "A", [((2 : Int), "f"), (3, "f")])]
        [(2 : Int), 3, 11] ([] : List Int) 1) (by decide)⟩

/-- C1 is contradicted by the code: the inner `while` of
`parse_apply_review_per_code_hunk` tests
`start_line <= line_number < start_line + end_line`, not membership in the
closed interval `[start_line, end_line]`.  At the failing input — a unit
with `start_line = 10`, `end_line = 12` and popped number 15 — the code
attaches the entry although `15 > 12`; and a unit with degenerate
`end_line = 4 < 5 = start_line` (zero-length hunk), which the claim says
matches nothing, still gets the entry for 6 attached. -/
theorem c1_interval_test_evaluation :
    parse_apply_review_per_code_hunk (fun _ => "feedback")
        [CodeChunk.mk 10 12 "hunk"] [(15 : Int)]
      = some (MergeOut.mk [(CodeChunk.mk 10 12 "hunk", [(15, "feedback")])]
          [15] [] 1) ∧
    ¬((15 : Int) ≤ 12) ∧
    parse_apply_review_per_code_hunk (fun _ => "feedback")
        [CodeChunk.mk 5 4 "degenerate"] [(6 : Int)]
      = some (MergeOut.mk [(CodeChunk.mk 5 4 "degenerate", [(6, "feedback")])]
          [6] [] 1) ∧
    ¬((5 : Int) ≤ 6 ∧ (6 : Int) ≤ 4) :=
  ⟨by decide, by decide, by decide, by decide⟩

/-- C10: `parse_apply_review_per_code_hunk` pops the stack before examining
any unit, so on an empty stack it fails (`list.pop` on an empty Python
list); under the caller's guard in `apply_review`, which breaks out of the
group loop whenever the stack is empty before calling, that failure branch
is unreachable — the threaded loop always produces a result. -/
theorem c10_empty_stack_guard :
    (∀ (E : Type) (ρ : Int → E) (code_changes : List CodeChunk),
      parse_apply_review_per_code_hunk ρ code_changes [] = none) ∧
    (∀ (E : Type) (ρ : Int → E) (cost : CodeChunk × List (Int × E) → Nat)
      (promptTokens : Nat) (groups : List (List CodeChunk)) (stack : List Int),
      (applyReviewChunkLoop ρ cost promptTokens groups stack).isSome = true) := by
  refine ⟨fun E ρ cc => rfl, fun E ρ cost pt groups => ?_⟩
  induction groups with
  | nil => intro stack; rfl
  | cons g gs ih =>
    intro stack
    cases stack with
    | nil => simp [applyReviewChunkLoop]
    | cons n rest =>
      obtain ⟨v, hv⟩ := Option.isSome_iff_exists.mp
        (ih (mergeHunks ρ g n rest).stack)
      simp [applyReviewChunkLoop, parse_apply_review_per_code_hunk, hv]

/-- C2 is contradicted by the code: `format_git_diff` calls
`re.split(r"\n\+{3,}\s", diff_text, re.MULTILINE)`, passing `re.MULTILINE`
(numeric value 8) as the positional `maxsplit` argument, so at most eight
separators are split.  A diff with nine `"+++ "` file separators therefore
yields only eight file records (the ninth file stays glued to the eighth
segment), although on a two-file diff the count is still correct. -/
theorem c2_file_split_evaluation :
    sepCount "head\n+++ b/f1\nA\n+++ b/f2\nA\n+++ b/f3\nA\n+++ b/f4\nA\n+++ b/f5\nA\n+++ b/f6\nA\n+++ b/f7\nA\n+++ b/f8\nA\n+++ b/f9\nA" = 9 ∧
    formatGitDiffRecordCount "head\n+++ b/f1\nA\n+++ b/f2\nA\n+++ b/f3\nA\n+++ b/f4\nA\n+++ b/f5\nA\n+++ b/f6\nA\n+++ b/f7\nA\n+++ b/f8\nA\n+++ b/f9\nA" = 8 ∧
    (pyReSplitFileChunks "head\n+++ b/f1\nA\n+++ b/f2\nA\n+++ b/f3\nA\n+++ b/f4\nA\n+++ b/f5\nA\n+++ b/f6\nA\n+++ b/f7\nA\n+++ b/f8\nA\n+++ b/f9\nA").getLast? = some "b/f8\nA\n+++ b/f9\nA" ∧
    sepCount "head\n+++ b/f1\nA\n+++ b/f2\nB" = 2 ∧
    formatGitDiffRecordCount "head\n+++ b/f1\nA\n+++ b/f2\nB" = 2 :=
  ⟨by decide, by decide, by decide, by decide, by decide⟩

lemma lookupGroup_addChunk_same (gs : List (String × List CodeChunk)) (m : String)
    (c : CodeChunk) :
    lookupGroup m (addChunkToGroups gs m c)
      = some ((lookupGroup m gs).getD [] ++ [c]) := by
  induction gs with
  | nil => simp [addChunkToGroups, lookupGroup]
  | cons g rest ih =>
    by_cases hg : g.1 = m
    · simp [addChunkToGroups, lookupGroup, hg]
    · simp [addChunkToGroups, lookupGroup, hg, ih]

lemma lookupGroup_addChunk_other (gs : List (String × List CodeChunk))
    (m m' : String) (c : CodeChunk) (h : ¬ m' = m) :
    lookupGroup m (addChunkToGroups gs m' c) = lookupGroup m gs := by
  induction gs with
  | nil => simp [addChunkToGroups, lookupGroup, h]
  | cons g rest ih =>
    by_cases hg : g.1 = m'
    · have hgm : ¬ g.1 = m := by rw [hg]; exact h
      simp [addChunkToGroups, lookupGroup, hg, hgm, h]
    · by_cases hgm : g.1 = m
      · simp [addChunkToGroups, lookupGroup, hg, hgm, Ne.symm h]
      · simp [addChunkToGroups, lookupGroup, hg, hgm, ih]

/-- The marker groups built from a hunk list, looked up at any marker,
contain exactly the chunks of the hunks carrying that marker, in hunk
order, appended after whatever the accumulator already held under that
marker. -/
lemma buildMarkerGroups_lookup (m : String) :
    ∀ (hunks : List (String × CodeChunk)) (gs : List (String × List CodeChunk)),
      lookupGroup m (buildMarkerGroups hunks gs)
        = match lookupGroup m gs with
          | some cs =>
            some (cs ++ (hunks.filter (fun h => decide (h.1 = m))).map Prod.snd)
          | none =>
            if (hunks.filter (fun h => decide (h.1 = m))).isEmpty then none
            else some ((hunks.filter (fun h => decide (h.1 = m))).map Prod.snd)
  | [], gs => by
    cases h : lookupGroup m gs <;> simp [buildMarkerGroups, h]
  | (m', c) :: rest, gs => by
    have ih := buildMarkerGroups_lookup m rest (addChunkToGroups gs m' c)
    by_cases hm : m' = m
    · subst hm
      rw [show buildMarkerGroups ((m', c) :: rest) gs
          = buildMarkerGroups rest (addChunkToGroups gs m' c) from rfl, ih,
        lookupGroup_addChunk_same]
      cases h : lookupGroup m' gs <;> simp [h, List.filter_cons]
    · have hfilter : List.filter (fun h => decide (h.1 = m)) ((m', c) :: rest)
          = List.filter (fun h => decide (h.1 = m)) rest := by
        simp [hm]
      rw [show buildMarkerGroups ((m', c) :: rest) gs
          = buildMarkerGroups rest (addChunkToGroups gs m' c) from rfl, ih,
        lookupGroup_addChunk_other gs m m' c hm]
      cases h : lookupGroup m gs with
      | none => rw [hfilter]
      | some cs => simp [h, hfilter]

/-- C3 amended: the Marker Indexer's marker is the text following the first
occurrence of the literal substring `"def"` in the hunk header line, trimmed
of surrounding whitespace, and the empty string when `"def"` does not occur
(not the full text trailing the `@@` delimiter); CodeUnits with identical
marker strings — the empty string included — are appended in hunk order
into the same MarkerGroup. -/
theorem c3_marker_groups_amended (hunks : List (String × CodeChunk)) (m : String) :
    (lookupGroup m (buildMarkerGroups hunks [])
      = if (hunks.filter (fun h => decide (h.1 = m))).isEmpty then none
        else some ((hunks.filter (fun h => decide (h.1 = m))).map Prod.snd)) ∧
    (∀ line, splitAfterFirst "def".data line.data = none → markerOf line = "") ∧
    (∀ line rest, splitAfterFirst "def".data line.data = some rest →
      markerOf line = pyStrip (String.mk rest)) := by
  refine ⟨?_, ?_, ?_⟩
  · rw [buildMarkerGroups_lookup m hunks []]
    rfl
  · intro line h
    simp [markerOf, h]
  · intro line rest h
    simp [markerOf, h]

/-- Counterexample to C3 as stated: on the header
`@@ -1,3 +1,4 @@ class Foo:` the trailing free text trimmed is
`class Foo:`, but the code's marker is the empty string; and even on a
`def`-carrying header the code's marker drops the `def` keyword itself. -/
theorem c3_marker_counterexample :
    markerOf "@@ -1,3 +1,4 @@ class Foo:" = "" ∧
    specHeaderTrailingText "@@ -1,3 +1,4 @@ class Foo:" = "class Foo:" ∧
    markerOf "@@ -1,3 +1,4 @@ class Foo:"
      ≠ specHeaderTrailingText "@@ -1,3 +1,4 @@ class Foo:" ∧
    markerOf "@@ -1,3 +1,4 @@ def foo(x):" = "foo(x):" ∧
    specHeaderTrailingText "@@ -1,3 +1,4 @@ def foo(x):" = "def foo(x):" ∧
    markerOf "@@ -1,3 +1,4 @@ def foo(x):"
      ≠ specHeaderTrailingText "@@ -1,3 +1,4 @@ def foo(x):" :=
  ⟨by decide, by decide, by decide, by decide, by decide, by decide⟩

/-- Witness for C3 amended: a `def`-less header gets the empty marker, and
looking up the group of marker `"foo(x):"` over three hunks (two sharing
that marker, one with the empty marker) returns exactly those two chunks in
hunk order. -/
theorem c3_marker_groups_amended_witness :
    (splitAfterFirst "def".data ("@@ -1,1 +1,1 @@ class A:").data = none) ∧
    markerOf "@@ -1,1 +1,1 @@ class A:" = "" ∧
    (lookupGroup "foo(x):"
        (buildMarkerGroups [("foo(x):", CodeChunk.mk 1 2 "a"),
          ("", CodeChunk.mk 4 5 "b"), ("foo(x):", CodeChunk.mk 7 8 "c")] [])
      = if ([("foo(x):", CodeChunk.mk 1 2 "a"), ("", CodeChunk.mk 4 5 "b"),
            ("foo(x):", CodeChunk.mk 7 8 "c")].filter
              (fun h => decide (h.1 = "foo(x):"))).isEmpty then none
        else some (([("foo(x):", CodeChunk.mk 1 2 "a"), ("", CodeChunk.mk 4 5 "b"),
            ("foo(x):", CodeChunk.mk 7 8 "c")].filter
              (fun h => decide (h.1 = "foo(x):"))).map Prod.snd)) :=
  ⟨by decide,
    (c3_marker_groups_amended [] "").2.1 "@@ -1,1 +1,1 @@ class A:" (by decide),
    (c3_marker_groups_amended [("foo(x):", CodeChunk.mk 1 2 "a"),
      ("", CodeChunk.mk 4 5 "b"), ("foo(x):", CodeChunk.mk 7 8 "c")] "foo(x):").1⟩
